import Mathlib

/-!
Verification of the Social-Networks-Graph backend domain engine.

The definitions below are a shallow embedding of the backend's user model and
service layer (mongoose `UserSchema` methods/statics and `UserService`):

* a user record is `UserR`; the Mongo collection is a `List UserR` in insertion
  order, and `findOne {id}` is `List.find?` over it;
* `document.save()` is `saveUser`, which rewrites the record with the matching
  id and applies the pre-save hook (`presave`: drop blank hobbies, deduplicate
  keeping first occurrences, exactly like `[...new Set(hobbies.filter(...))]`);
* thrown business-rule errors are the `Err` inductive; each service function
  returns `Except Err α × List UserR`, the second component being the state of
  the collection after the call (so a throw after a partial write would be
  visible);
* JavaScript `Math.round(x * 100) / 100` on the non-negative scores is
  `roundTo2`; numbers are `ℚ`;
* `Math.random()` in the graph projection is modelled by an explicit stream
  `rand : ℕ → ℚ` of drawn values, node `i` drawing values `2*i` and `2*i+1`.
-/

structure UserR where
  id : String
  username : String
  age : Nat
  hobbies : List String
  friends : List String
  popularityScore : ℚ
deriving DecidableEq, Repr

inductive Err where
  | NotFound
  | SelfLink
  | AlreadyLinked
  | NotLinked
  | HasFriends
  | DuplicateName
deriving DecidableEq, Repr

instance {ε α : Type} [DecidableEq ε] [DecidableEq α] : DecidableEq (Except ε α) :=
  fun x y =>
    match x, y with
    | .error e, .error f =>
      if h : e = f then .isTrue (by rw [h]) else .isFalse (fun c => h (Except.error.inj c))
    | .ok a, .ok b =>
      if h : a = b then .isTrue (by rw [h]) else .isFalse (fun c => h (Except.ok.inj c))
    | .error _, .ok _ => .isFalse (fun c => Except.noConfusion c)
    | .ok _, .error _ => .isFalse (fun c => Except.noConfusion c)

/-- JavaScript `[...new Set(l)]`: deduplicate keeping the first occurrence of
each element. `seen` accumulates the elements already emitted. -/
def jsSetDedupAux (seen : List String) : List String → List String
  | [] => []
  | h :: t => if seen.contains h then jsSetDedupAux seen t
              else h :: jsSetDedupAux (seen ++ [h]) t

def jsSetDedup (l : List String) : List String := jsSetDedupAux [] l

/-- The `UserSchema.pre('save')` hook: `this.hobbies = [...new
Set(this.hobbies.filter(hobby => hobby.trim() !== ''))]`. -/
def presave (u : UserR) : UserR :=
  { u with hobbies := jsSetDedup (u.hobbies.filter (fun h => h.trim != "")) }

/-- `Model.findOne({ id })`. -/
def findUser (s : List UserR) (uid : String) : Option UserR :=
  s.find? (fun u => u.id == uid)

/-- `document.save()`: persist `u` over the record with the same id, running
the pre-save hook. -/
def saveUser (s : List UserR) (u : UserR) : List UserR :=
  s.map (fun v => if v.id = u.id then presave u else v)

/-- `Math.round(q * 100) / 100` (JavaScript rounds half up; the scores this is
applied to are non-negative). -/
def roundTo2 (q : ℚ) : ℚ := ((⌊q * 100 + 1/2⌋ : ℤ) : ℚ) / 100

/-- The value computed by `UserSchema.methods.calculatePopularityScore`:
`friendsCount` plus `0.5` per hobby shared with each friend found in the
collection, rounded to two decimals; `0` when the user has no friends. -/
def calcScoreValue (s : List UserR) (u : UserR) : ℚ :=
  if u.friends.length = 0 then 0
  else
    let friendDocs := s.filter (fun v => u.friends.contains v.id)
    let sharedHobbiesScore : ℚ :=
      (friendDocs.map (fun f =>
        (((jsSetDedup u.hobbies).filter (fun h => f.hobbies.contains h)).length : ℚ)
          * (1/2))).sum
    roundTo2 ((u.friends.length : ℚ) + sharedHobbiesScore)

/-- `UserSchema.methods.calculatePopularityScore` as a state transformer: on
zero friends it returns `0` early (without saving); otherwise it stores the
rounded score on the record and saves. Returns (returned value, collection). -/
def calculatePopularityScore (s : List UserR) (uid : String) : ℚ × List UserR :=
  match findUser s uid with
  | none => (0, s)
  | some u =>
    if u.friends.length = 0 then (0, s)
    else
      let sc := calcScoreValue s u
      (sc, saveUser s { u with popularityScore := sc })

/-- `UserSchema.methods.addFriend` called on the document with id `uid`:
already-friends check, self check, friend lookup, two-sided push, two saves,
two score recomputations. -/
def addFriend (s : List UserR) (uid fid : String) : Except Err Unit × List UserR :=
  match findUser s uid with
  | none => (.error .NotFound, s)
  | some u =>
    if u.friends.contains fid then (.error .AlreadyLinked, s)
    else if fid = u.id then (.error .SelfLink, s)
    else
      match findUser s fid with
      | none => (.error .NotFound, s)
      | some fr =>
        let u' := { u with friends := u.friends ++ [fid] }
        let fr' := { fr with friends := fr.friends ++ [u.id] }
        let s1 := saveUser (saveUser s u') fr'
        let s2 := (calculatePopularityScore s1 uid).2
        let s3 := (calculatePopularityScore s2 fid).2
        (.ok (), s3)

/-- `UserService.addFriendship`: load the user (404 when missing), reject
self-friendship, then delegate to `addFriend`. -/
def addFriendship (s : List UserR) (userId friendId : String) :
    Except Err Unit × List UserR :=
  match findUser s userId with
  | none => (.error .NotFound, s)
  | some _ =>
    if userId = friendId then (.error .SelfLink, s)
    else addFriend s userId friendId

/-- `UserSchema.methods.removeFriend`: not-friends check, friend lookup,
two-sided filter, two saves, two score recomputations. -/
def removeFriend (s : List UserR) (uid fid : String) : Except Err Unit × List UserR :=
  match findUser s uid with
  | none => (.error .NotFound, s)
  | some u =>
    if ¬ u.friends.contains fid then (.error .NotLinked, s)
    else
      match findUser s fid with
      | none => (.error .NotFound, s)
      | some fr =>
        let u' := { u with friends := u.friends.filter (fun x => x != fid) }
        let fr' := { fr with friends := fr.friends.filter (fun x => x != uid) }
        let s1 := saveUser (saveUser s u') fr'
        let s2 := (calculatePopularityScore s1 uid).2
        let s3 := (calculatePopularityScore s2 fid).2
        (.ok (), s3)

/-- `UserService.removeFriendship`: load the user, then delegate to
`removeFriend`. -/
def removeFriendship (s : List UserR) (userId friendId : String) :
    Except Err Unit × List UserR :=
  match findUser s userId with
  | none => (.error .NotFound, s)
  | some _ => removeFriend s userId friendId

/-- `UserService.createUser`: reject an existing username, otherwise insert the
new record (friends empty, score 0; `newId` is the generated uuid) and run the
initial score calculation. -/
def createUser (s : List UserR) (newId username : String) (age : Nat)
    (hobbies : List String) : Except Err UserR × List UserR :=
  if (s.find? (fun v => v.username == username)).isSome then
    (.error .DuplicateName, s)
  else
    let u := presave { id := newId, username := username, age := age,
                       hobbies := hobbies, friends := [], popularityScore := 0 }
    let s1 := s ++ [u]
    let s2 := (calculatePopularityScore s1 newId).2
    (.ok u, s2)

/-- The sparse update payload of `UserService.updateUser` (`IUserUpdate`). -/
structure UserUpdate where
  username : Option String
  age : Option Nat
  hobbies : Option (List String)
deriving DecidableEq, Repr

/-- `UserService.updateUser`: load (null when missing), duplicate-name check
when a (truthy) different username is supplied, `Object.assign` of the given
fields, save, and a score recomputation when hobbies were supplied. Returns
the final stored record. -/
def updateUser (s : List UserR) (uid : String) (upd : UserUpdate) :
    Except Err (Option UserR) × List UserR :=
  match findUser s uid with
  | none => (.ok none, s)
  | some u =>
    let dup : Bool :=
      match upd.username with
      | some un => un != "" && un != u.username &&
          (s.find? (fun v => v.username == un && v.id != uid)).isSome
      | none => false
    if dup then (.error .DuplicateName, s)
    else
      let u' := { u with username := upd.username.getD u.username,
                         age := upd.age.getD u.age,
                         hobbies := upd.hobbies.getD u.hobbies }
      let s1 := saveUser s u'
      match upd.hobbies with
      | some _ =>
        let s2 := (calculatePopularityScore s1 uid).2
        (.ok (findUser s2 uid), s2)
      | none => (.ok (findUser s1 uid), s1)

/-- `UserSchema.statics.canDeleteUser`: the user exists and has no friends. -/
def canDeleteUser (s : List UserR) (uid : String) : Bool :=
  match findUser s uid with
  | none => false
  | some u => u.friends.length == 0

/-- `UserService.deleteUser`: `false` when missing, `HasFriends` when the user
still has friends, otherwise `deleteOne({ id })`. -/
def deleteUser (s : List UserR) (uid : String) : Except Err Bool × List UserR :=
  match findUser s uid with
  | none => (.ok false, s)
  | some _ =>
    if ¬ canDeleteUser s uid then (.error .HasFriends, s)
    else (.ok true, s.eraseP (fun v => v.id == uid))

/-- Insert into a list kept in descending `popularityScore` order. -/
def insertByScore (u : UserR) : List UserR → List UserR
  | [] => [u]
  | v :: t => if u.popularityScore ≤ v.popularityScore then v :: insertByScore u t
              else u :: v :: t

/-- `sort({ popularityScore: -1 })`. -/
def sortByScoreDesc : List UserR → List UserR
  | [] => []
  | u :: t => insertByScore u (sortByScoreDesc t)

structure Stats where
  totalUsers : Nat
  totalFriendships : ℚ
  averagePopularityScore : ℚ
  topUsers : List UserR
deriving DecidableEq, Repr

/-- `UserService.getUserStats`: user count, half the summed friend-list
lengths, rounded average score, top five by score. -/
def getUserStats (s : List UserR) : Stats :=
  { totalUsers := s.length
  , totalFriendships := ((s.map (fun u => (u.friends.length : ℚ))).sum) / 2
  , averagePopularityScore :=
      roundTo2 (if 0 < s.length
                then (s.map (fun u => u.popularityScore)).sum / (s.length : ℚ)
                else 0)
  , topUsers := (sortByScoreDesc s).take 5 }

/-- `[user.id, friendId].sort().join('-')`: the deduplication key of
`getGraphData`. -/
def pairKey (a b : String) : String :=
  if a ≤ b then a ++ "-" ++ b else b ++ "-" ++ a

structure GEdge where
  eid : String
  source : String
  target : String
  etype : String
deriving DecidableEq, Repr

/-- The edge loop of `UserSchema.statics.getGraphData`: walk every user's
friends list, skip a pair whose key is already in `processedPairs`. -/
def buildEdges (s : List UserR) : List GEdge :=
  (s.foldl (fun acc u =>
      u.friends.foldl (fun acc2 fid =>
        let key := pairKey u.id fid
        if acc2.2.contains key then acc2
        else (acc2.1 ++ [⟨"edge-" ++ u.id ++ "-" ++ fid, u.id, fid, "smoothstep"⟩],
              acc2.2 ++ [key])) acc)
    (([], []) : List GEdge × List String)).1

/-- One step of the edge loop, acting on a directed pair; `buildEdges` is the
fold of this over all directed pairs (proved below). -/
def edgeStep (acc : List GEdge × List String) (p : String × String) :
    List GEdge × List String :=
  if acc.2.contains (pairKey p.1 p.2) then acc
  else (acc.1 ++ [⟨"edge-" ++ p.1 ++ "-" ++ p.2, p.1, p.2, "smoothstep"⟩],
        acc.2 ++ [pairKey p.1 p.2])

structure GNode where
  nid : String
  label : String
  username : String
  age : Nat
  hobbies : List String
  popularityScore : ℚ
  posX : ℝ
  posY : ℝ
  ntype : String

structure GraphData where
  nodes : List GNode
  edges : List GEdge

/-- One node of `getGraphData`: circle of radius 200 around (400, 300) at
angle `index * 2π / n`, plus `(Math.random() - 0.5) * 100` jitter on each
coordinate, typed by the score-5 threshold. `n` is the user count and `rand`
the stream of `Math.random()` draws. -/
noncomputable def mkGNode (n : ℕ) (rand : ℕ → ℚ) (index : ℕ) (user : UserR) : GNode :=
  let angle : ℝ := ((index : ℝ) * 2 * Real.pi) / (n : ℝ)
  { nid := user.id
  , label := user.username ++ " (" ++ toString user.age ++ ")"
  , username := user.username
  , age := user.age
  , hobbies := user.hobbies
  , popularityScore := user.popularityScore
  , posX := 400 + 200 * Real.cos angle + ((rand (2 * index) : ℝ) - 1/2) * 100
  , posY := 300 + 200 * Real.sin angle + ((rand (2 * index + 1) : ℝ) - 1/2) * 100
  , ntype := if 5 < user.popularityScore then "HighScoreNode" else "LowScoreNode" }

/-- `UserSchema.statics.getGraphData`: one node per user, edges deduplicated
by `pairKey`. -/
noncomputable def getGraphData (s : List UserR) (rand : ℕ → ℚ) : GraphData :=
  { nodes := s.enum.map (fun p => mkGNode s.length rand p.1 p.2)
  , edges := buildEdges s }

/-! Specification-side definitions, written from the spec's words, to compare
the code against. -/

/-- All directed friendship pairs `(u.id, f)` of the snapshot. -/
def opairs (s : List UserR) : List (String × String) :=
  s.flatMap (fun u => u.friends.map (fun f => (u.id, f)))

/-- Canonical (sorted) representative of an unordered pair. -/
def canonPair (p : String × String) : String × String :=
  if p.1 ≤ p.2 then p else (p.2, p.1)

/-- The distinct unordered friend pairs of the snapshot; its length is the `e`
of the spec's "n users with e symmetric friendships". -/
def friendPairs (s : List UserR) : List (String × String) :=
  ((opairs s).map canonPair).dedup

/-- Spec §8 symmetry: `b ∈ a.friends ⟺ a ∈ b.friends` for all users. -/
def SymFriends (s : List UserR) : Prop :=
  ∀ u ∈ s, ∀ v ∈ s, (v.id ∈ u.friends ↔ u.id ∈ v.friends)

/-- Well-formedness of a snapshot, as the spec's data-model invariants state:
distinct ids, deduplicated friends lists, irreflexivity, and every friend id
resolving to a stored user that lists the friendship back (symmetry). -/
def StoreOk (s : List UserR) : Prop :=
  (s.map (fun u => u.id)).Nodup ∧
  ∀ u ∈ s, u.friends.Nodup ∧ u.id ∉ u.friends ∧
    ∀ f ∈ u.friends, ∃ v, v ∈ s ∧ v.id = f ∧ u.id ∈ v.friends

instance (s : List UserR) : Decidable (StoreOk s) := by
  unfold StoreOk
  infer_instance

instance (s : List UserR) : Decidable (SymFriends s) := by
  unfold SymFriends
  infer_instance

/-- The hobby set the spec's score formula reads for a friend id. -/
def friendHobbies (s : List UserR) (fid : String) : Finset String :=
  (((findUser s fid).map (fun v => v.hobbies)).getD []).toFinset

/-- Modelled from the spec (§4.3): `score = |friends| + 0.5 × Σ_{f ∈ friends}
|hobbies(user) ∩ hobbies(f)|`. -/
def specScore (s : List UserR) (u : UserR) : ℚ :=
  (u.friends.length : ℚ) +
    (1/2) * ((u.friends.map
      (fun fid => ((u.hobbies.toFinset ∩ friendHobbies s fid).card : ℚ))).sum)

/-- The graph structure (ids and friends lists) of a snapshot; the score
recomputations preserve it. -/
def graphProj (s : List UserR) : List (String × List String) :=
  s.map (fun u => (u.id, u.friends))

/-- A graph node without its (jittered) position. -/
def stripPos (n : GNode) : String × String × String × Nat × List String × ℚ × String :=
  (n.nid, n.label, n.username, n.age, n.hobbies, n.popularityScore, n.ntype)

/-! Concrete stores used by counterexamples and witnesses. -/

/-- Two mutually-linked friendless-hobby users, scores consistent (each 1). -/
def c1Store : List UserR :=
  [ { id := "a", username := "alice", age := 20, hobbies := [],
      friends := ["b"], popularityScore := 1 }
  , { id := "b", username := "bob", age := 21, hobbies := [],
      friends := ["a"], popularityScore := 1 } ]

/-- The spec §8 score example: A {coding, gaming} linked to B {coding, music}
and C {gaming, sports}. -/
def c2Store : List UserR :=
  [ { id := "a", username := "A", age := 20, hobbies := ["coding", "gaming"],
      friends := ["b", "c"], popularityScore := 3 }
  , { id := "b", username := "B", age := 21, hobbies := ["coding", "music"],
      friends := ["a"], popularityScore := 3/2 }
  , { id := "c", username := "C", age := 22, hobbies := ["gaming", "sports"],
      friends := ["a"], popularityScore := 3/2 } ]

def c2UserA : UserR :=
  { id := "a", username := "A", age := 20, hobbies := ["coding", "gaming"],
    friends := ["b", "c"], popularityScore := 3 }

/-- One existing friendless user. -/
def c9User : UserR :=
  { id := "a", username := "alice", age := 20, hobbies := [],
    friends := [], popularityScore := 0 }

/-- One-user store, used by the C9 and C6 witnesses. -/
def c9Store : List UserR := [c9User]

/-- One friendless user, used by the C7 witness. -/
def c7Store : List UserR :=
  [ { id := "solo", username := "solo", age := 30, hobbies := ["chess"],
      friends := [], popularityScore := 0 } ]

/-! Basic lemmas about deduplication, lookup and save. -/

theorem mem_jsSetDedupAux {x : String} :
    ∀ {l seen : List String}, x ∈ jsSetDedupAux seen l ↔ x ∈ l ∧ x ∉ seen := by
  intro l
  induction l with
  | nil => intro seen; simp [jsSetDedupAux]
  | cons h t ih =>
    intro seen
    by_cases hcn : seen.contains h
    · rw [jsSetDedupAux, if_pos hcn, ih]
      have hmem : h ∈ seen := by simpa using hcn
      constructor
      · exact fun ⟨h1, h2⟩ => ⟨List.mem_cons_of_mem _ h1, h2⟩
      · rintro ⟨h1, h2⟩
        rcases List.mem_cons.mp h1 with rfl | h1'
        · exact absurd hmem h2
        · exact ⟨h1', h2⟩
    · rw [jsSetDedupAux, if_neg hcn]
      have hnm : h ∉ seen := by simpa using hcn
      constructor
      · intro hx
        rcases List.mem_cons.mp hx with rfl | hx'
        · exact ⟨List.mem_cons_self _ _, hnm⟩
        · have := ih.mp hx'
          refine ⟨List.mem_cons_of_mem _ this.1, fun hc => this.2 ?_⟩
          simp [hc]
      · rintro ⟨h1, h2⟩
        rcases List.mem_cons.mp h1 with rfl | h1'
        · exact List.mem_cons_self _ _
        · by_cases hxh : x = h
          · subst hxh; exact List.mem_cons_self _ _
          · exact List.mem_cons_of_mem _ (ih.mpr ⟨h1', by simp [h2, hxh]⟩)

theorem nodup_jsSetDedupAux : ∀ {l seen : List String}, (jsSetDedupAux seen l).Nodup := by
  intro l
  induction l with
  | nil => intro seen; simp [jsSetDedupAux]
  | cons h t ih =>
    intro seen
    by_cases hcn : seen.contains h
    · rw [jsSetDedupAux, if_pos hcn]; exact ih
    · rw [jsSetDedupAux, if_neg hcn]
      refine List.nodup_cons.mpr ⟨fun hc => ?_, ih⟩
      have := (mem_jsSetDedupAux.mp hc).2
      simp at this

theorem mem_jsSetDedup {x : String} {l : List String} : x ∈ jsSetDedup l ↔ x ∈ l := by
  unfold jsSetDedup
  rw [mem_jsSetDedupAux]
  simp

theorem nodup_jsSetDedup {l : List String} : (jsSetDedup l).Nodup :=
  nodup_jsSetDedupAux

theorem list_toFinset_map {α β : Type} [DecidableEq α] [DecidableEq β]
    (l : List α) (f : α → β) : (l.map f).toFinset = l.toFinset.image f := by
  ext x
  simp

/-- The shared-hobby count computed by the code (`[...new Set(A)].filter(h =>
setB.has(h)).length`) is the cardinality of the hobby-set intersection. -/
theorem shared_count_eq_card (A B : List String) :
    (((jsSetDedup A).filter (fun h => B.contains h)).length : ℚ) =
      ((A.toFinset ∩ B.toFinset).card : ℚ) := by
  have hnd : ((jsSetDedup A).filter (fun h => B.contains h)).Nodup :=
    List.Nodup.filter _ nodup_jsSetDedup
  have hfin : ((jsSetDedup A).filter (fun h => B.contains h)).toFinset =
      A.toFinset ∩ B.toFinset := by
    ext x
    simp [List.mem_filter, mem_jsSetDedup]
  rw [← List.toFinset_card_of_nodup hnd, hfin]

theorem findUser_eq_some {s : List UserR} {uid : String} {u : UserR}
    (h : findUser s uid = some u) : u ∈ s ∧ u.id = uid := by
  unfold findUser at h
  refine ⟨List.mem_of_find?_eq_some h, ?_⟩
  have := List.find?_some h
  simpa using this

theorem findUser_eq_none_iff {s : List UserR} {uid : String} :
    findUser s uid = none ↔ ∀ u ∈ s, u.id ≠ uid := by
  unfold findUser
  rw [List.find?_eq_none]
  constructor
  · intro h u hu
    have := h u hu
    simpa using this
  · intro h u hu
    simpa using h u hu

theorem id_injective {s : List UserR} (hN : (s.map (fun x => x.id)).Nodup)
    {a b : UserR} (ha : a ∈ s) (hb : b ∈ s) (hid : a.id = b.id) : a = b := by
  induction s with
  | nil => cases ha
  | cons x t ih =>
    simp only [List.map_cons, List.nodup_cons] at hN
    rcases List.mem_cons.mp ha with rfl | ha' <;>
      rcases List.mem_cons.mp hb with rfl | hb'
    · rfl
    · exact absurd (hid ▸ List.mem_map_of_mem (fun x => x.id) hb') hN.1
    · exact absurd (hid ▸ List.mem_map_of_mem (fun x => x.id) ha') hN.1
    · exact ih hN.2 ha' hb'

theorem findUser_of_mem {s : List UserR} (hN : (s.map (fun x => x.id)).Nodup)
    {u : UserR} (hu : u ∈ s) : findUser s u.id = some u := by
  induction s with
  | nil => cases hu
  | cons x t ih =>
    simp only [List.map_cons, List.nodup_cons] at hN
    rcases List.mem_cons.mp hu with rfl | hu'
    · simp [findUser]
    · have hx : (x.id == u.id) = false := by
        rw [beq_eq_false_iff_ne]
        intro hxe
        exact hN.1 (hxe ▸ List.mem_map_of_mem (fun y => y.id) hu')
      simp only [findUser, List.find?_cons, hx]
      exact ih hN.2 hu'

/-! C1. The spec requires the stored `popularityScore` to equal the score
formula after every completed mutation, in particular to be `0` after a user's
last friend is unlinked. The code's `calculatePopularityScore` returns `0`
early when `friends.length === 0` WITHOUT writing the score back, so an
unlink that removes the last friend leaves the previous score stored. -/

/-- C1: on a consistent two-user store (each the other's only friend, both
scores 1), unlinking succeeds, leaves both friends lists empty, but user "a"
still stores score 1 while the score formula now yields 0. -/
theorem c1_stale_score_after_last_unlink :
    (removeFriendship c1Store "a" "b").1 = Except.ok () ∧
    ((findUser (removeFriendship c1Store "a" "b").2 "a").map
      (fun u => u.friends)) = some [] ∧
    ((findUser (removeFriendship c1Store "a" "b").2 "a").map
      (fun u => u.popularityScore)) = some 1 ∧
    ((findUser (removeFriendship c1Store "a" "b").2 "a").map
      (fun u => calcScoreValue (removeFriendship c1Store "a" "b").2 u)) = some 0 := by
  with_unfolding_all decide

/-! C4. A failed link/unlink leaves the store (hence both users) unchanged. -/

/-- C4: whenever `addFriendship` or `removeFriendship` returns a business-rule
error, the resulting collection is exactly the input collection. -/
theorem c4_failed_link_unlink_unchanged :
    ∀ (s : List UserR) (a b : String) (e : Err),
      ((addFriendship s a b).1 = Except.error e → (addFriendship s a b).2 = s) ∧
      ((removeFriendship s a b).1 = Except.error e → (removeFriendship s a b).2 = s) := by
  intro s a b e
  constructor
  · show (addFriendship s a b).1 = Except.error e → (addFriendship s a b).2 = s
    unfold addFriendship addFriend
    split
    · intro _; rfl
    · split
      · intro _; rfl
      · split
        · intro _; rfl
        · split
          · intro _; rfl
          · split
            · intro _; rfl
            · split
              · intro _; rfl
              · intro h; exact absurd h (by simp)
  · show (removeFriendship s a b).1 = Except.error e → (removeFriendship s a b).2 = s
    unfold removeFriendship removeFriend
    split
    · intro _; rfl
    · split
      · intro _; rfl
      · split
        · intro _; rfl
        · split
          · intro _; rfl
          · intro h; exact absurd h (by simp)

/-- C4 witness: a link on an empty store fails and changes nothing. -/
theorem c4_witness :
    (addFriendship ([] : List UserR) "x" "y").1 = Except.error Err.NotFound ∧
    (addFriendship ([] : List UserR) "x" "y").2 = [] := by
  refine ⟨by decide, ?_⟩
  exact (c4_failed_link_unlink_unchanged [] "x" "y" Err.NotFound).1 (by decide)

/-! C7. Deletion is blocked exactly while the user still has friends. -/

theorem findUser_eraseP_self {s : List UserR} {uid : String}
    (hN : (s.map (fun x => x.id)).Nodup) :
    findUser (s.eraseP (fun v => v.id == uid)) uid = none := by
  induction s with
  | nil => rfl
  | cons x t ih =>
    simp only [List.map_cons, List.nodup_cons] at hN
    by_cases hx : x.id = uid
    · rw [List.eraseP_cons_of_pos (by simpa using hx)]
      rw [findUser_eq_none_iff]
      intro v hv hvid
      exact hN.1 ((hvid.trans hx.symm) ▸ List.mem_map_of_mem (fun y => y.id) hv)
    · rw [List.eraseP_cons_of_neg (by simpa using hx)]
      unfold findUser
      rw [List.find?_cons_of_neg _ (by simpa using hx)]
      exact ih hN.2

/-- C7: for an existing user, `deleteUser` fails with `HasFriends` (leaving
the store unchanged) when the friends list is non-empty, and succeeds —
removing the record — when it is empty. -/
theorem c7_delete_guard :
    ∀ (s : List UserR) (uid : String) (u : UserR),
      findUser s uid = some u → (s.map (fun x => x.id)).Nodup →
      (u.friends ≠ [] → deleteUser s uid = (Except.error Err.HasFriends, s)) ∧
      (u.friends = [] →
        deleteUser s uid = (Except.ok true, s.eraseP (fun v => v.id == uid)) ∧
        findUser (deleteUser s uid).2 uid = none) := by
  intro s uid u hfind hN
  constructor
  · intro hne
    have hlen : (u.friends.length == 0) = false := by
      simp [List.length_eq_zero, hne]
    simp [deleteUser, canDeleteUser, hfind, hlen]
  · intro hemp
    have hdel : deleteUser s uid = (Except.ok true, s.eraseP (fun v => v.id == uid)) := by
      simp [deleteUser, canDeleteUser, hfind, hemp]
    exact ⟨hdel, by rw [hdel]; exact findUser_eraseP_self hN⟩

/-- C7 witness: deleting a friendless user succeeds and removes the record. -/
theorem c7_witness :
    deleteUser c7Store "solo" = (Except.ok true, []) ∧
    findUser (deleteUser c7Store "solo").2 "solo" = none := by
  have h := (c7_delete_guard c7Store "solo"
      { id := "solo", username := "solo", age := 30, hobbies := ["chess"],
        friends := [], popularityScore := 0 }
      (by with_unfolding_all decide) (by decide)).2 rfl
  exact ⟨by rw [h.1]; rfl, h.2⟩

/-! C8. Duplicate usernames are rejected on create and on rename. -/

/-- C8: creating a user whose username an existing user already holds fails
with `DuplicateName` and leaves the store unchanged; renaming an existing user
to a (non-empty) username held by a different user likewise fails with
`DuplicateName` and leaves the store unchanged. -/
theorem c8_duplicate_name :
    (∀ (s : List UserR) (nid un : String) (age : Nat) (hb : List String),
      (s.find? (fun v => v.username == un)).isSome = true →
      createUser s nid un age hb = (Except.error Err.DuplicateName, s)) ∧
    (∀ (s : List UserR) (uid : String) (u : UserR) (upd : UserUpdate) (un : String),
      findUser s uid = some u → upd.username = some un →
      un ≠ "" → un ≠ u.username →
      (s.find? (fun v => v.username == un && v.id != uid)).isSome = true →
      updateUser s uid upd = (Except.error Err.DuplicateName, s)) := by
  constructor
  · intro s nid un age hb h
    simp [createUser, h]
  · intro s uid u upd un hfind hun hne hneu h
    have hdup : (match upd.username with
        | some un => un != "" && un != u.username &&
            (s.find? (fun v => v.username == un && v.id != uid)).isSome
        | none => false) = true := by
      rw [hun]
      simp only [Bool.and_eq_true, bne_iff_ne]
      exact ⟨⟨hne, hneu⟩, h⟩
    simp [updateUser, hfind, hdup]

/-- C8 witness: a second creation with username "alice" fails against
`c9Store`, and renaming the sole user of `c1Store` to the other's name fails;
both leave the store unchanged. -/
theorem c8_witness :
    createUser c9Store "fresh" "alice" 33 [] = (Except.error Err.DuplicateName, c9Store) ∧
    updateUser c1Store "a" { username := some "bob", age := none, hobbies := none } =
      (Except.error Err.DuplicateName, c1Store) := by
  constructor
  · exact c8_duplicate_name.1 c9Store "fresh" "alice" 33 [] (by decide)
  · exact c8_duplicate_name.2 c1Store "a"
      { id := "a", username := "alice", age := 20, hobbies := [],
        friends := ["b"], popularityScore := 1 }
      { username := some "bob", age := none, hobbies := none } "bob"
      (by with_unfolding_all decide) rfl (by decide) (by decide) (by decide)

/-! C9. The claim says the self-link check precedes loading; the code loads
user `a` first, so a self-link on a missing id reports `NotFound`. -/

/-- C9 counterexample: on the empty store, `link("u1","u1")` fails with
`NotFound`, not `SelfLink` as the claim requires. -/
theorem c9_selflink_cex :
    (addFriendship ([] : List UserR) "u1" "u1").1 = Except.error Err.NotFound ∧
    (addFriendship ([] : List UserR) "u1" "u1").1 ≠ Except.error Err.SelfLink := by
  decide

/-- C9 (amended): whenever user `a` exists, `link(a, a)` fails with `SelfLink`
and the store is unchanged; the existence check on `a` runs first, so a
missing `a` yields `NotFound` instead. -/
theorem c9_selflink_when_user_exists :
    ∀ (s : List UserR) (a : String) (u : UserR), findUser s a = some u →
      addFriendship s a a = (Except.error Err.SelfLink, s) := by
  intro s a u h
  simp [addFriendship, h]

/-- C9 witness: self-link on an existing user. -/
theorem c9_witness :
    addFriendship c9Store "a" "a" = (Except.error Err.SelfLink, c9Store) := by
  exact c9_selflink_when_user_exists c9Store "a"
    { id := "a", username := "alice", age := 20, hobbies := [],
      friends := [], popularityScore := 0 } (by with_unfolding_all decide)

/-! C2. The score formula. The code's set-based shared-hobby count equals the
intersection cardinality, its sum over the filtered collection rearranges to
the spec's sum over the friends list, and the 2-decimal rounding is the
identity on the half-integer scores the formula produces. -/

theorem map_id_filter (s : List UserR) (p : String → Bool) :
    (s.filter (fun v => p v.id)).map (fun v => v.id) =
      (s.map (fun v => v.id)).filter p := by
  induction s with
  | nil => rfl
  | cons x t ih =>
    by_cases hx : p x.id
    · simp [List.filter_cons, hx, ih]
    · simp [List.filter_cons, hx, ih]

theorem roundTo2_half (m : ℤ) : roundTo2 ((m : ℚ) / 2) = (m : ℚ) / 2 := by
  unfold roundTo2
  have h1 : ((m : ℚ) / 2) * 100 + 1/2 = ((50 * m : ℤ) : ℚ) + 1/2 := by
    push_cast
    ring
  have h2 : ⌊((50 * m : ℤ) : ℚ) + 1/2⌋ = 50 * m := by
    have hfr : ⌊(1/2 : ℚ)⌋ = 0 := by norm_num [Int.floor_eq_iff]
    rw [add_comm, Int.floor_add_int, hfr, zero_add]
  rw [h1, h2]
  push_cast
  ring

theorem specScore_half (s : List UserR) (u : UserR) :
    specScore s u =
      (((2 * u.friends.length +
          (u.friends.map
            (fun fid => (u.hobbies.toFinset ∩ friendHobbies s fid).card)).sum : ℕ) : ℤ) : ℚ) / 2 := by
  unfold specScore
  push_cast [List.map_map, Function.comp]
  have hcomp : (Int.cast ∘ Nat.cast ∘
      fun fid => (u.hobbies.toFinset ∩ friendHobbies s fid).card) =
      (fun fid => ((u.hobbies.toFinset ∩ friendHobbies s fid).card : ℚ)) := by
    funext fid
    simp
  rw [hcomp]
  ring

theorem roundTo2_specScore (s : List UserR) (u : UserR) :
    roundTo2 (specScore s u) = specScore s u := by
  rw [specScore_half]
  have := roundTo2_half ((2 * u.friends.length +
      (u.friends.map
        (fun fid => (u.hobbies.toFinset ∩ friendHobbies s fid).card)).sum : ℕ) : ℤ)
  simpa using this

theorem calc_eq_spec (s : List UserR) (u : UserR)
    (hN : (s.map (fun x => x.id)).Nodup) (hf : u.friends.Nodup)
    (hcl : ∀ f ∈ u.friends, ∃ v, v ∈ s ∧ v.id = f) :
    calcScoreValue s u = if u.friends = [] then 0 else roundTo2 (specScore s u) := by
  by_cases hemp : u.friends = []
  · simp [calcScoreValue, hemp]
  · have hlen : ¬ (u.friends.length = 0) := by
      simpa [List.length_eq_zero] using hemp
    rw [calcScoreValue, if_neg hlen, if_neg hemp]
    simp only []
    congr 1
    unfold specScore
    have hstep1 : ((s.filter (fun v => u.friends.contains v.id)).map (fun f =>
        (((jsSetDedup u.hobbies).filter (fun h => f.hobbies.contains h)).length : ℚ)
          * (1/2))) =
        ((s.filter (fun v => u.friends.contains v.id)).map (fun f =>
          ((u.hobbies.toFinset ∩ friendHobbies s f.id).card : ℚ) * (1/2))) := by
      refine List.map_congr_left (fun f hfmem => ?_)
      have hfs : f ∈ s := (List.mem_filter.mp hfmem).1
      have hfind : findUser s f.id = some f := findUser_of_mem hN hfs
      have hhob : friendHobbies s f.id = f.hobbies.toFinset := by
        unfold friendHobbies
        rw [hfind]
        rfl
      rw [hhob, shared_count_eq_card]
    have hperm : ((s.filter (fun v => u.friends.contains v.id)).map
        (fun v => v.id)).Perm u.friends := by
      refine List.perm_of_nodup_nodup_toFinset_eq ?_ hf ?_
      · rw [map_id_filter]
        exact List.Nodup.filter _ hN
      · ext x
        rw [map_id_filter]
        simp only [List.mem_toFinset, List.mem_filter, List.mem_map]
        constructor
        · intro h
          simpa using h.2
        · intro hx
          rcases hcl x hx with ⟨v, hv, rfl⟩
          exact ⟨⟨v, hv, rfl⟩, by simpa using hx⟩
    have hstep2 : ((s.filter (fun v => u.friends.contains v.id)).map (fun f =>
        ((u.hobbies.toFinset ∩ friendHobbies s f.id).card : ℚ) * (1/2))) =
        (((s.filter (fun v => u.friends.contains v.id)).map (fun v => v.id)).map
          (fun fid => ((u.hobbies.toFinset ∩ friendHobbies s fid).card : ℚ) * (1/2))) := by
      rw [List.map_map]
      rfl
    rw [hstep1, hstep2, (hperm.map _).sum_eq, List.sum_map_mul_right]
    ring

/-- C2: (i) rounding to 2 decimals is the identity on the spec's score formula
(whose value is always a half-integer); (ii) for every user of a well-formed
snapshot, the code's recomputed score equals the spec formula `|friends| + 0.5
× Σ_{f ∈ friends} |hobbies(user) ∩ hobbies(f)|`, and is 0 when the user has no
friends regardless of hobbies; (iii) the spec's A/B/C example evaluates to
exactly 3. -/
theorem c2_score_formula :
    (∀ (s : List UserR) (u : UserR), roundTo2 (specScore s u) = specScore s u) ∧
    (∀ (s : List UserR) (u : UserR),
      (s.map (fun x => x.id)).Nodup → u.friends.Nodup →
      (∀ f ∈ u.friends, ∃ v, v ∈ s ∧ v.id = f) →
      calcScoreValue s u = if u.friends = [] then 0 else specScore s u) ∧
    calcScoreValue c2Store c2UserA = 3 := by
  refine ⟨roundTo2_specScore, fun s u hN hf hcl => ?_, by with_unfolding_all decide⟩
  rw [calc_eq_spec s u hN hf hcl, roundTo2_specScore]

/-- C2 witness: the spec's example store satisfies the hypotheses and user A's
recomputed score equals the spec formula there. -/
theorem c2_witness :
    ((c2Store.map (fun x => x.id)).Nodup ∧ c2UserA.friends.Nodup ∧
      (∀ f ∈ c2UserA.friends, ∃ v, v ∈ c2Store ∧ v.id = f)) ∧
    calcScoreValue c2Store c2UserA =
      if c2UserA.friends = [] then 0 else specScore c2Store c2UserA :=
  ⟨⟨by decide, by decide, by decide⟩,
    c2_score_formula.2.1 c2Store c2UserA (by decide) (by decide) (by decide)⟩

/-! C10. `totalFriendships` halves the summed degree; the handshake argument
shows this equals the number of distinct unordered friend pairs. -/

theorem mem_opairs {s : List UserR} {p : String × String} :
    p ∈ opairs s ↔ ∃ u, u ∈ s ∧ u.id = p.1 ∧ p.2 ∈ u.friends := by
  unfold opairs
  rw [List.mem_flatMap]
  constructor
  · rintro ⟨u, hu, hp⟩
    rcases List.mem_map.mp hp with ⟨f, hf, rfl⟩
    exact ⟨u, hu, rfl, hf⟩
  · rintro ⟨u, hu, hid, hf⟩
    refine ⟨u, hu, List.mem_map.mpr ⟨p.2, hf, ?_⟩⟩
    rw [hid]

theorem opairs_nodup {s : List UserR} (h : StoreOk s) : (opairs s).Nodup := by
  unfold opairs
  rw [List.nodup_flatMap]
  constructor
  · intro u hu
    refine List.Nodup.map ?_ ((h.2 u hu).1)
    intro a b hab
    simpa using congrArg Prod.snd hab
  · have hp : List.Pairwise (fun a b : UserR => a.id ≠ b.id) s :=
      List.pairwise_map.mp h.1
    refine hp.imp ?_
    intro a b hne x hxa hxb
    rcases List.mem_map.mp hxa with ⟨f, _, rfl⟩
    rcases List.mem_map.mp hxb with ⟨g, _, hg⟩
    exact hne (by simpa using (congrArg Prod.fst hg).symm)

theorem opairs_swap {s : List UserR} (h : StoreOk s) {a b : String}
    (hab : (a, b) ∈ opairs s) : (b, a) ∈ opairs s := by
  rcases mem_opairs.mp hab with ⟨u, hu, hid, hmem⟩
  rcases (h.2 u hu).2.2 b hmem with ⟨v, hv, hvid, hback⟩
  have ha : u.id = a := hid
  exact mem_opairs.mpr ⟨v, hv, hvid, by show a ∈ v.friends; exact ha ▸ hback⟩

theorem opairs_irrefl {s : List UserR} (h : StoreOk s) (a : String) :
    (a, a) ∉ opairs s := by
  intro hmem
  rcases mem_opairs.mp hmem with ⟨u, hu, hid, hf⟩
  exact (h.2 u hu).2.1 (by rw [hid]; exact hf)

theorem handshake {s : List UserR} (h : StoreOk s) :
    (opairs s).length = 2 * (friendPairs s).length := by
  classical
  have hnd := opairs_nodup h
  set O := (opairs s).toFinset with hO
  have hlen : (opairs s).length = O.card := (List.toFinset_card_of_nodup hnd).symm
  have hmemO : ∀ p : String × String, p ∈ O ↔ p ∈ opairs s := by
    intro p
    simp [hO]
  set O1 := O.filter (fun p => p.1 < p.2) with hO1
  have himg : O.filter (fun p => ¬ p.1 < p.2) = O1.image Prod.swap := by
    ext q
    rw [Finset.mem_filter, Finset.mem_image]
    constructor
    · rintro ⟨hq, hnlt⟩
      have hqO : (q.1, q.2) ∈ opairs s := by
        rw [Prod.mk.eta]
        exact (hmemO q).mp hq
      have hne : q.1 ≠ q.2 := by
        intro he
        rw [← he] at hqO
        exact opairs_irrefl h q.1 hqO
      have hgt : q.2 < q.1 := lt_of_le_of_ne (not_lt.mp hnlt) (Ne.symm hne)
      refine ⟨(q.2, q.1), ?_, by simp⟩
      rw [hO1, Finset.mem_filter]
      exact ⟨(hmemO _).mpr (opairs_swap h hqO), hgt⟩
    · rintro ⟨p, hp, rfl⟩
      rw [hO1, Finset.mem_filter] at hp
      have hpO : (p.1, p.2) ∈ opairs s := by
        rw [Prod.mk.eta]
        exact (hmemO p).mp hp.1
      refine ⟨(hmemO _).mpr (opairs_swap h hpO), ?_⟩
      simpa using not_lt.mpr (le_of_lt hp.2)
  have hcardsplit :
      O1.card + (O.filter (fun p : String × String => ¬ p.1 < p.2)).card = O.card := by
    rw [hO1]
    exact Finset.filter_card_add_filter_neg_card_eq_card (fun p : String × String => p.1 < p.2)
  have hswap : (O1.image Prod.swap).card = O1.card :=
    Finset.card_image_of_injective _ Prod.swap_injective
  have hcanon : O.image canonPair = O1 := by
    ext q
    rw [Finset.mem_image]
    constructor
    · rintro ⟨p, hp, rfl⟩
      have hpO : (p.1, p.2) ∈ opairs s := by
        rw [Prod.mk.eta]
        exact (hmemO p).mp hp
      have hne : p.1 ≠ p.2 := by
        intro he
        rw [← he] at hpO
        exact opairs_irrefl h p.1 hpO
      by_cases hle : p.1 ≤ p.2
      · have hcp : canonPair p = p := by
          unfold canonPair
          rw [if_pos hle]
        rw [hcp, hO1, Finset.mem_filter]
        exact ⟨hp, lt_of_le_of_ne hle hne⟩
      · have hcp : canonPair p = (p.2, p.1) := by
          unfold canonPair
          rw [if_neg hle]
        rw [hcp, hO1, Finset.mem_filter]
        refine ⟨(hmemO _).mpr (opairs_swap h hpO), ?_⟩
        simpa using not_le.mp hle
    · intro hq
      rw [hO1, Finset.mem_filter] at hq
      refine ⟨q, hq.1, ?_⟩
      unfold canonPair
      rw [if_pos (le_of_lt hq.2)]
  have hfp : (friendPairs s).length = O1.card := by
    unfold friendPairs
    rw [← List.card_toFinset, list_toFinset_map, ← hO, hcanon]
  rw [hlen, ← hcardsplit, himg, hswap, hfp]
  ring

theorem opairs_length (s : List UserR) :
    (opairs s).length = (s.map (fun u => u.friends.length)).sum := by
  unfold opairs
  rw [List.length_flatMap]
  congr 1
  refine List.map_congr_left (fun u _ => ?_)
  simp

/-- C10: `totalFriendships` is half the summed friends-list lengths, equals
the number `e` of distinct unordered friend pairs of the (symmetric,
well-formed) snapshot, and in particular is an integer. -/
theorem c10_total_friendships :
    ∀ (s : List UserR), StoreOk s →
      (getUserStats s).totalFriendships =
        ((s.map (fun u => (u.friends.length : ℚ))).sum) / 2 ∧
      (getUserStats s).totalFriendships = ((friendPairs s).length : ℚ) ∧
      ∃ k : ℕ, (getUserStats s).totalFriendships = (k : ℚ) := by
  intro s hok
  have h1 : (getUserStats s).totalFriendships =
      ((s.map (fun u => (u.friends.length : ℚ))).sum) / 2 := rfl
  have hsum : ((s.map (fun u => (u.friends.length : ℚ))).sum) =
      (((s.map (fun u => u.friends.length)).sum : ℕ) : ℚ) := by
    rw [Nat.cast_list_sum, List.map_map]
    rfl
  have h2 : (getUserStats s).totalFriendships = ((friendPairs s).length : ℚ) := by
    rw [h1, hsum, ← opairs_length, handshake hok]
    push_cast
    ring
  exact ⟨h1, h2, ⟨(friendPairs s).length, h2⟩⟩

/-- C10 witness: the three-user example store is well-formed and its stats
satisfy the aggregate-integrity property. -/
theorem c10_witness :
    StoreOk c2Store ∧
    ((getUserStats c2Store).totalFriendships =
        ((c2Store.map (fun u => (u.friends.length : ℚ))).sum) / 2 ∧
      (getUserStats c2Store).totalFriendships = ((friendPairs c2Store).length : ℚ) ∧
      ∃ k : ℕ, (getUserStats c2Store).totalFriendships = (k : ℚ)) :=
  ⟨by decide, c10_total_friendships c2Store (by decide)⟩

/-! C5. Projection counts: n nodes, and edge deduplication by the sorted-join
key collapses the two directions of each friendship into one edge. The key is
injective on pairs of equal-length ids (uuid-shaped ids all have length 36),
which makes the number of distinct keys the number of distinct unordered
pairs. -/

theorem opairs_cons (x : UserR) (t : List UserR) :
    opairs (x :: t) = (x.friends.map (fun f => (x.id, f))) ++ opairs t := by
  unfold opairs
  rw [List.flatMap_cons]

theorem buildEdges_foldl :
    ∀ (s : List UserR) (acc : List GEdge × List String),
      s.foldl (fun acc u =>
        u.friends.foldl (fun acc2 fid =>
          let key := pairKey u.id fid
          if acc2.2.contains key then acc2
          else (acc2.1 ++ [⟨"edge-" ++ u.id ++ "-" ++ fid, u.id, fid, "smoothstep"⟩],
                acc2.2 ++ [key])) acc) acc
        = (opairs s).foldl edgeStep acc := by
  intro s
  induction s with
  | nil => intro acc; rfl
  | cons x t ih =>
    intro acc
    rw [List.foldl_cons, opairs_cons, List.foldl_append, List.foldl_map]
    exact ih _

theorem buildEdges_eq (s : List UserR) :
    buildEdges s = ((opairs s).foldl edgeStep ([], [])).1 := by
  unfold buildEdges
  rw [buildEdges_foldl]

theorem edgeStep_foldl_spec :
    ∀ (ps : List (String × String)) (acc : List GEdge × List String),
      acc.1.length = acc.2.length → acc.2.Nodup →
      ((ps.foldl edgeStep acc).1.length = (ps.foldl edgeStep acc).2.length ∧
       (ps.foldl edgeStep acc).2.Nodup ∧
       (ps.foldl edgeStep acc).2.toFinset =
         acc.2.toFinset ∪ (ps.map (fun p => pairKey p.1 p.2)).toFinset) := by
  intro ps
  induction ps with
  | nil =>
    intro acc h1 h2
    exact ⟨h1, h2, by simp⟩
  | cons p t ih =>
    intro acc h1 h2
    rw [List.foldl_cons]
    by_cases hk : acc.2.contains (pairKey p.1 p.2)
    · have hstep : edgeStep acc p = acc := by
        unfold edgeStep
        rw [if_pos hk]
      rw [hstep]
      rcases ih acc h1 h2 with ⟨ih1, ih2, ih3⟩
      refine ⟨ih1, ih2, ?_⟩
      have hkin : pairKey p.1 p.2 ∈ acc.2 := by simpa using hk
      rw [ih3, List.map_cons, List.toFinset_cons, Finset.union_insert,
        Finset.insert_eq_self.mpr (Finset.mem_union_left _ (List.mem_toFinset.mpr hkin))]
    · have hstep : edgeStep acc p =
          (acc.1 ++ [⟨"edge-" ++ p.1 ++ "-" ++ p.2, p.1, p.2, "smoothstep"⟩],
           acc.2 ++ [pairKey p.1 p.2]) := by
        unfold edgeStep
        rw [if_neg hk]
      rw [hstep]
      have h1' : (acc.1 ++ [(⟨"edge-" ++ p.1 ++ "-" ++ p.2, p.1, p.2, "smoothstep"⟩ : GEdge)]).length =
          (acc.2 ++ [pairKey p.1 p.2]).length := by
        simp [h1]
      have h2' : (acc.2 ++ [pairKey p.1 p.2]).Nodup := by
        rw [List.nodup_append]
        refine ⟨h2, List.nodup_singleton _, ?_⟩
        intro x hx hx2
        rw [List.mem_singleton] at hx2
        subst hx2
        exact absurd (by simpa using hx) (by simpa using hk)
      rcases ih (acc.1 ++ [(⟨"edge-" ++ p.1 ++ "-" ++ p.2, p.1, p.2, "smoothstep"⟩ : GEdge)],
          acc.2 ++ [pairKey p.1 p.2]) h1' h2' with ⟨ih1, ih2, ih3⟩
      refine ⟨ih1, ih2, ?_⟩
      rw [ih3, List.toFinset_append, List.map_cons, List.toFinset_cons]
      ext x
      simp only [Finset.mem_union, List.mem_toFinset, Finset.mem_insert,
        List.mem_singleton, List.mem_cons, List.mem_append]
      tauto

theorem buildEdges_length (s : List UserR) :
    (buildEdges s).length = ((opairs s).map (fun p => pairKey p.1 p.2)).toFinset.card := by
  rw [buildEdges_eq]
  rcases edgeStep_foldl_spec (opairs s) ([], []) rfl List.nodup_nil with ⟨h1, h2, h3⟩
  rw [h1, ← List.toFinset_card_of_nodup h2, h3]
  simp

theorem pairKey_canon (p : String × String) :
    pairKey p.1 p.2 = (canonPair p).1 ++ "-" ++ (canonPair p).2 := by
  unfold pairKey canonPair
  by_cases h : p.1 ≤ p.2 <;> simp [h]

theorem append_dash_inj {a₁ b₁ a₂ b₂ : String} (hlen : a₁.length = a₂.length)
    (h : a₁ ++ "-" ++ b₁ = a₂ ++ "-" ++ b₂) : a₁ = a₂ ∧ b₁ = b₂ := by
  have hdash : ("-" : String).data = ['-'] := rfl
  have hd : a₁.data ++ ('-' :: b₁.data) = a₂.data ++ ('-' :: b₂.data) := by
    have h2 := congrArg String.data h
    simpa [String.data_append, hdash, List.append_assoc] using h2
  have hl : a₁.data.length = a₂.data.length := hlen
  have hinj := List.append_inj hd hl
  exact ⟨String.ext hinj.1, String.ext (List.cons.inj hinj.2).2⟩

theorem canon_opairs_ids {s : List UserR} (h : StoreOk s) {q : String × String}
    (hq : q ∈ (opairs s).map canonPair) :
    (∃ u, u ∈ s ∧ u.id = q.1) ∧ (∃ v, v ∈ s ∧ v.id = q.2) := by
  rcases List.mem_map.mp hq with ⟨p, hp, rfl⟩
  have hpO : (p.1, p.2) ∈ opairs s := by
    rw [Prod.mk.eta]
    exact hp
  rcases mem_opairs.mp hpO with ⟨u, hu, hid, hf⟩
  rcases (h.2 u hu).2.2 p.2 hf with ⟨v, hv, hvid, _⟩
  unfold canonPair
  by_cases hle : p.1 ≤ p.2
  · rw [if_pos hle]
    exact ⟨⟨u, hu, hid⟩, ⟨v, hv, hvid⟩⟩
  · rw [if_neg hle]
    exact ⟨⟨v, hv, hvid⟩, ⟨u, hu, hid⟩⟩

/-- C5: on a well-formed snapshot with equal-length (uuid-shaped) ids, the
projection emits exactly one node per user and exactly one edge per distinct
unordered friend pair — the `(a,b)`/`(b,a)` duplicates collapse through the
canonical sorted pair key. -/
theorem c5_projection_counts :
    ∀ (s : List UserR) (rand : ℕ → ℚ), StoreOk s →
      (∀ u ∈ s, ∀ v ∈ s, u.id.length = v.id.length) →
      (getGraphData s rand).nodes.length = s.length ∧
      (getGraphData s rand).edges.length = (friendPairs s).length := by
  intro s rand hok hlen
  constructor
  · show (s.enum.map (fun p => mkGNode s.length rand p.1 p.2)).length = s.length
    rw [List.length_map, List.enum_length]
  · show (buildEdges s).length = (friendPairs s).length
    rw [buildEdges_length]
    have hmapkeys : (opairs s).map (fun p => pairKey p.1 p.2) =
        ((opairs s).map canonPair).map (fun q => q.1 ++ "-" ++ q.2) := by
      rw [List.map_map]
      exact List.map_congr_left (fun p _ => pairKey_canon p)
    rw [hmapkeys, list_toFinset_map]
    rw [Finset.card_image_of_injOn ?inj]
    · unfold friendPairs
      rw [← List.card_toFinset]
    case inj =>
      intro q1 hq1 q2 hq2 heq
      rw [Finset.mem_coe, List.mem_toFinset] at hq1 hq2
      rcases canon_opairs_ids hok hq1 with ⟨⟨u1, hu1, hid1⟩, _⟩
      rcases canon_opairs_ids hok hq2 with ⟨⟨u2, hu2, hid2⟩, _⟩
      have hl : q1.1.length = q2.1.length := by
        rw [← hid1, ← hid2]
        exact hlen u1 hu1 u2 hu2
      have hres := append_dash_inj hl heq
      exact Prod.ext hres.1 hres.2

/-- C5 witness: two users with one mutual friendship project to 2 nodes and 1
edge. -/
theorem c5_witness :
    (StoreOk c1Store ∧ (∀ u ∈ c1Store, ∀ v ∈ c1Store, u.id.length = v.id.length)) ∧
    ((getGraphData c1Store (fun _ => 0)).nodes.length = c1Store.length ∧
     (getGraphData c1Store (fun _ => 0)).edges.length = (friendPairs c1Store).length) :=
  ⟨⟨by decide, by decide⟩,
    c5_projection_counts c1Store (fun _ => 0) (by decide) (by decide)⟩

/-! C3. Symmetry preservation. The score recomputations only touch
`popularityScore` (and normalize hobbies), so they preserve the graph
projection (ids and friends lists); the two-sided save is analyzed by cases. -/

theorem saveUser_ids (s : List UserR) (w : UserR) :
    (saveUser s w).map (fun x => x.id) = s.map (fun x => x.id) := by
  unfold saveUser
  rw [List.map_map]
  refine List.map_congr_left (fun v _ => ?_)
  by_cases h : v.id = w.id
  · simp only [Function.comp_apply, if_pos h]
    exact h.symm
  · simp only [Function.comp_apply, if_neg h]

theorem graphProj_saveUser {s : List UserR} (hN : (s.map (fun x => x.id)).Nodup)
    {u w : UserR} (hu : u ∈ s) (hw : w.id = u.id) (hwf : w.friends = u.friends) :
    graphProj (saveUser s w) = graphProj s := by
  unfold graphProj saveUser
  rw [List.map_map]
  refine List.map_congr_left (fun v hv => ?_)
  by_cases hvw : v.id = w.id
  · have hvu : v = u := id_injective hN hv hu (by rw [hvw, hw])
    simp only [Function.comp_apply, if_pos hvw]
    show (w.id, w.friends) = (v.id, v.friends)
    rw [hw, hwf, hvu]
  · simp only [Function.comp_apply, if_neg hvw]

theorem graphProj_calcPS {s : List UserR} (hN : (s.map (fun x => x.id)).Nodup)
    (uid : String) :
    graphProj ((calculatePopularityScore s uid).2) = graphProj s := by
  unfold calculatePopularityScore
  cases hf : findUser s uid with
  | none => rfl
  | some u =>
    rcases findUser_eq_some hf with ⟨hu, _⟩
    by_cases hl : u.friends.length = 0
    · simp [hl]
    · simp only [hl, if_neg, ite_false, if_false]
      exact graphProj_saveUser hN hu rfl rfl

theorem ids_eq_of_graphProj {s t : List UserR} (h : graphProj t = graphProj s) :
    t.map (fun x => x.id) = s.map (fun x => x.id) := by
  have h2 := congrArg (List.map Prod.fst) h
  simpa [graphProj, List.map_map, Function.comp] using h2

theorem symFriends_of_graphProj {s t : List UserR} (h : graphProj t = graphProj s)
    (hs : SymFriends s) : SymFriends t := by
  intro x hx y hy
  have hx' : (x.id, x.friends) ∈ graphProj s := by
    rw [← h]
    exact List.mem_map_of_mem _ hx
  have hy' : (y.id, y.friends) ∈ graphProj s := by
    rw [← h]
    exact List.mem_map_of_mem _ hy
  rcases List.mem_map.mp hx' with ⟨x2, hx2, heqx⟩
  rcases List.mem_map.mp hy' with ⟨y2, hy2, heqy⟩
  have hidx : x2.id = x.id := congrArg Prod.fst heqx
  have hfrx : x2.friends = x.friends := congrArg Prod.snd heqx
  have hidy : y2.id = y.id := congrArg Prod.fst heqy
  have hfry : y2.friends = y.friends := congrArg Prod.snd heqy
  rw [← hidx, ← hfrx, ← hidy, ← hfry]
  exact hs x2 hx2 y2 hy2

theorem twoSave_cases {s : List UserR} {u fr : UserR} {F G : List String} {x : UserR}
    (hx : x ∈ saveUser (saveUser s { u with friends := F }) { fr with friends := G }) :
    (x.id = u.id ∧ x.id ≠ fr.id ∧ x.friends = F) ∨
    (x.id = fr.id ∧ x.friends = G) ∨
    (x.id ≠ u.id ∧ x.id ≠ fr.id ∧ x ∈ s) := by
  simp only [saveUser] at hx
  rcases List.mem_map.mp hx with ⟨x1, hx1, rfl⟩
  rcases List.mem_map.mp hx1 with ⟨vx, hvx, rfl⟩
  by_cases h1 : vx.id = u.id
  · rw [if_pos (show vx.id = ({ u with friends := F } : UserR).id from h1)]
    by_cases h12 : u.id = fr.id
    · rw [if_pos (show (presave { u with friends := F }).id =
          ({ fr with friends := G } : UserR).id from h12)]
      right; left
      exact ⟨rfl, rfl⟩
    · rw [if_neg (show ¬ (presave { u with friends := F }).id =
          ({ fr with friends := G } : UserR).id from h12)]
      left
      exact ⟨rfl, h12, rfl⟩
  · rw [if_neg (show ¬ vx.id = ({ u with friends := F } : UserR).id from h1)]
    by_cases h2 : vx.id = fr.id
    · rw [if_pos (show vx.id = ({ fr with friends := G } : UserR).id from h2)]
      right; left
      exact ⟨rfl, rfl⟩
    · rw [if_neg (show ¬ vx.id = ({ fr with friends := G } : UserR).id from h2)]
      right; right
      exact ⟨h1, h2, hvx⟩

theorem symFriends_after_link {s : List UserR} (hs : SymFriends s)
    {u fr : UserR} (hu : u ∈ s) (hfr : fr ∈ s)
    (hne : fr.id ≠ u.id) (hnb : fr.id ∉ u.friends) :
    SymFriends (saveUser (saveUser s { u with friends := u.friends ++ [fr.id] })
      { fr with friends := fr.friends ++ [u.id] }) := by
  have hnb' : u.id ∉ fr.friends := fun hc => hnb ((hs u hu fr hfr).mpr hc)
  intro x hx y hy
  rcases twoSave_cases hx with ⟨hxid, hxne, hxf⟩ | ⟨hxid, hxf⟩ | ⟨hx1, hx2, hxs⟩ <;>
    rcases twoSave_cases hy with ⟨hyid, hyne, hyf⟩ | ⟨hyid, hyf⟩ | ⟨hy1, hy2, hys⟩
  · rw [hxid, hxf, hyid, hyf]
  · rw [hxid, hxf, hyid, hyf]
    simp
  · rw [hxid, hxf]
    simp only [List.mem_append, List.mem_singleton, hy2, or_false]
    exact hs u hu y hys
  · rw [hxid, hxf, hyid, hyf]
    simp
  · rw [hxid, hxf, hyid, hyf]
  · rw [hxid, hxf]
    simp only [List.mem_append, List.mem_singleton, hy1, or_false]
    exact hs fr hfr y hys
  · rw [hyid, hyf]
    simp only [List.mem_append, List.mem_singleton, hx2, or_false]
    exact hs x hxs u hu
  · rw [hyid, hyf]
    simp only [List.mem_append, List.mem_singleton, hx1, or_false]
    exact hs x hxs fr hfr
  · exact hs x hxs y hys

theorem symFriends_after_unlink {s : List UserR} (hs : SymFriends s)
    {u fr : UserR} (hu : u ∈ s) (hfr : fr ∈ s) :
    SymFriends (saveUser
      (saveUser s { u with friends := u.friends.filter (fun z => z != fr.id) })
      { fr with friends := fr.friends.filter (fun z => z != u.id) }) := by
  intro x hx y hy
  rcases twoSave_cases hx with ⟨hxid, hxne, hxf⟩ | ⟨hxid, hxf⟩ | ⟨hx1, hx2, hxs⟩ <;>
    rcases twoSave_cases hy with ⟨hyid, hyne, hyf⟩ | ⟨hyid, hyf⟩ | ⟨hy1, hy2, hys⟩
  · rw [hxid, hxf, hyid, hyf]
  · rw [hxid, hxf, hyid, hyf]
    simp [List.mem_filter]
  · rw [hxid, hxf]
    simp only [List.mem_filter, bne_iff_ne, ne_eq, hy2, not_false_iff, and_true]
    exact hs u hu y hys
  · rw [hxid, hxf, hyid, hyf]
    simp [List.mem_filter]
  · rw [hxid, hxf, hyid, hyf]
  · rw [hxid, hxf]
    simp only [List.mem_filter, bne_iff_ne, ne_eq, hy1, not_false_iff, and_true]
    exact hs fr hfr y hys
  · rw [hyid, hyf]
    simp only [List.mem_filter, bne_iff_ne, ne_eq, hx2, not_false_iff, and_true]
    exact hs x hxs u hu
  · rw [hyid, hyf]
    simp only [List.mem_filter, bne_iff_ne, ne_eq, hx1, not_false_iff, and_true]
    exact hs x hxs fr hfr
  · exact hs x hxs y hys

theorem symFriends_addFriendship (s : List UserR)
    (hN : (s.map (fun x => x.id)).Nodup) (hs : SymFriends s) (a b : String) :
    SymFriends (addFriendship s a b).2 := by
  unfold addFriendship
  cases hfa : findUser s a with
  | none => exact hs
  | some u =>
    by_cases hab : a = b
    · rw [if_pos hab]
      exact hs
    · rw [if_neg hab]
      unfold addFriend
      rw [hfa]
      simp only []
      by_cases hc : u.friends.contains b = true
      · rw [if_pos hc]
        exact hs
      · rw [if_neg hc]
        by_cases hbu : b = u.id
        · rw [if_pos hbu]
          exact hs
        · rw [if_neg hbu]
          cases hfb : findUser s b with
          | none => exact hs
          | some fr =>
            simp only []
            rcases findUser_eq_some hfa with ⟨hu, hidu⟩
            rcases findUser_eq_some hfb with ⟨hfr, hidb⟩
            subst hidu
            subst hidb
            have hne : fr.id ≠ u.id := hbu
            have hnb : fr.id ∉ u.friends := by simpa using hc
            have hsym1 := symFriends_after_link hs hu hfr hne hnb
            have hids1 : ((saveUser (saveUser s
                { u with friends := u.friends ++ [fr.id] })
                { fr with friends := fr.friends ++ [u.id] }).map (fun x => x.id)) =
                s.map (fun x => x.id) := by
              rw [saveUser_ids, saveUser_ids]
            have hN1 : ((saveUser (saveUser s
                { u with friends := u.friends ++ [fr.id] })
                { fr with friends := fr.friends ++ [u.id] }).map (fun x => x.id)).Nodup := by
              rw [hids1]
              exact hN
            have hp2 := graphProj_calcPS hN1 u.id
            have hN2 : (((calculatePopularityScore (saveUser (saveUser s
                { u with friends := u.friends ++ [fr.id] })
                { fr with friends := fr.friends ++ [u.id] }) u.id).2).map
                  (fun x => x.id)).Nodup := by
              rw [ids_eq_of_graphProj hp2]
              exact hN1
            have hp3 := graphProj_calcPS hN2 fr.id
            exact symFriends_of_graphProj (hp3.trans hp2) hsym1

theorem symFriends_removeFriendship (s : List UserR)
    (hN : (s.map (fun x => x.id)).Nodup) (hs : SymFriends s) (a b : String) :
    SymFriends (removeFriendship s a b).2 := by
  unfold removeFriendship
  cases hfa : findUser s a with
  | none => exact hs
  | some u0 =>
    unfold removeFriend
    rw [hfa]
    simp only []
    by_cases hc : u0.friends.contains b = true
    · rw [if_neg (not_not_intro hc)]
      cases hfb : findUser s b with
      | none => exact hs
      | some fr =>
        simp only []
        rcases findUser_eq_some hfa with ⟨hu, hidu⟩
        rcases findUser_eq_some hfb with ⟨hfr, hidb⟩
        subst hidu
        subst hidb
        have hsym1 := symFriends_after_unlink hs hu hfr
        have hids1 : ((saveUser (saveUser s
            { u0 with friends := u0.friends.filter (fun z => z != fr.id) })
            { fr with friends := fr.friends.filter (fun z => z != u0.id) }).map
              (fun x => x.id)) = s.map (fun x => x.id) := by
          rw [saveUser_ids, saveUser_ids]
        have hN1 : ((saveUser (saveUser s
            { u0 with friends := u0.friends.filter (fun z => z != fr.id) })
            { fr with friends := fr.friends.filter (fun z => z != u0.id) }).map
              (fun x => x.id)).Nodup := by
          rw [hids1]
          exact hN
        have hp2 := graphProj_calcPS hN1 u0.id
        have hN2 : (((calculatePopularityScore (saveUser (saveUser s
            { u0 with friends := u0.friends.filter (fun z => z != fr.id) })
            { fr with friends := fr.friends.filter (fun z => z != u0.id) }) u0.id).2).map
              (fun x => x.id)).Nodup := by
          rw [ids_eq_of_graphProj hp2]
          exact hN1
        have hp3 := graphProj_calcPS hN2 fr.id
        exact symFriends_of_graphProj (hp3.trans hp2) hsym1
    · rw [if_pos (by simpa using hc)]
      exact hs

theorem symFriends_createUser (s : List UserR)
    (hN : (s.map (fun x => x.id)).Nodup) (hs : SymFriends s)
    (nid un : String) (age : Nat) (hb : List String)
    (hfresh : nid ∉ s.map (fun x => x.id)) (hfresh2 : ∀ v ∈ s, nid ∉ v.friends) :
    SymFriends (createUser s nid un age hb).2 := by
  unfold createUser
  by_cases hdup : (s.find? (fun v => v.username == un)).isSome = true
  · rw [if_pos hdup]
    exact hs
  · rw [if_neg hdup]
    simp only []
    have hids1 : ((s ++ [presave { id := nid, username := un, age := age, hobbies := hb, friends := [], popularityScore := 0 }]).map (fun x => x.id)) =
        s.map (fun x => x.id) ++ [nid] := by
      rw [List.map_append]
      rfl
    have hN1 : ((s ++ [presave { id := nid, username := un, age := age, hobbies := hb, friends := [], popularityScore := 0 }]).map (fun x => x.id)).Nodup := by
      rw [hids1, List.nodup_append]
      refine ⟨hN, List.nodup_singleton _, ?_⟩
      intro z hz hz2
      rw [List.mem_singleton] at hz2
      subst hz2
      exact hfresh hz
    have hsym1 : SymFriends (s ++ [presave { id := nid, username := un, age := age, hobbies := hb, friends := [], popularityScore := 0 }]) := by
      intro x hx y hy
      rcases List.mem_append.mp hx with hxs | hxnu <;>
        rcases List.mem_append.mp hy with hys | hynu
      · exact hs x hxs y hys
      · rw [List.mem_singleton.mp hynu]
        exact iff_of_false (hfresh2 x hxs) (List.not_mem_nil _)
      · rw [List.mem_singleton.mp hxnu]
        exact iff_of_false (List.not_mem_nil _) (hfresh2 y hys)
      · rw [List.mem_singleton.mp hxnu, List.mem_singleton.mp hynu]
    exact symFriends_of_graphProj (graphProj_calcPS hN1 nid) hsym1

theorem symFriends_deleteUser (s : List UserR) (hs : SymFriends s) (uid : String) :
    SymFriends (deleteUser s uid).2 := by
  unfold deleteUser
  cases hf : findUser s uid with
  | none => exact hs
  | some u =>
    by_cases hcd : canDeleteUser s uid = true
    · rw [if_neg (not_not_intro hcd)]
      intro x hx y hy
      exact hs x ((List.eraseP_sublist _).subset hx) y ((List.eraseP_sublist _).subset hy)
    · rw [if_pos (by simpa using hcd)]
      exact hs

/-- C3: on a store with unique ids whose friendship relation is symmetric,
symmetry (`b ∈ a.friends ⟺ a ∈ b.friends` for all users) still holds after
`addFriendship`, `removeFriendship`, `createUser` (with a fresh generated id)
and `deleteUser` — whether the operation succeeds or fails. -/
theorem c3_symmetry_preserved :
    ∀ (s : List UserR), (s.map (fun x => x.id)).Nodup → SymFriends s →
      (∀ a b, SymFriends (addFriendship s a b).2) ∧
      (∀ a b, SymFriends (removeFriendship s a b).2) ∧
      (∀ nid un age hb, nid ∉ s.map (fun x => x.id) → (∀ v ∈ s, nid ∉ v.friends) →
        SymFriends (createUser s nid un age hb).2) ∧
      (∀ uid, SymFriends (deleteUser s uid).2) := by
  intro s hN hs
  exact ⟨symFriends_addFriendship s hN hs,
    symFriends_removeFriendship s hN hs,
    fun nid un age hb h1 h2 => symFriends_createUser s hN hs nid un age hb h1 h2,
    symFriends_deleteUser s hs⟩

/-- C3 witness: applying the theorem on the two-user store for each of a link,
an unlink, a create with a fresh id and a delete. -/
theorem c3_witness :
    ((c1Store.map (fun x => x.id)).Nodup ∧ SymFriends c1Store) ∧
    SymFriends (addFriendship c1Store "a" "b").2 ∧
    SymFriends (removeFriendship c1Store "a" "b").2 ∧
    SymFriends (createUser c1Store "c" "carol" 25 []).2 ∧
    SymFriends (deleteUser c1Store "a").2 := by
  have h := c3_symmetry_preserved c1Store (by decide) (by decide)
  exact ⟨⟨by decide, by decide⟩, h.1 "a" "b", h.2.1 "a" "b",
    h.2.2.1 "c" "carol" 25 [] (by decide) (by decide), h.2.2.2 "a"⟩

/-! C6. The projection reads `Math.random()` for every node position, so two
invocations on the same snapshot give different positions; everything else —
node identity, labels, data, category, and the edge list — is a deterministic
function of the snapshot. -/

/-- C6 counterexample: two runs of the projection on the same one-user
snapshot differ (the jitter draws differ, moving the node's x position by
100), so the output is not invocation-deterministic as claimed. -/
theorem c6_projection_not_deterministic :
    getGraphData c9Store (fun _ => 0) ≠ getGraphData c9Store (fun _ => 1) := by
  intro h
  have hx := congrArg (fun g => g.nodes.map (fun n => n.posX)) h
  simp only [getGraphData] at hx
  have henum : c9Store.enum = [(0, c9User)] := rfl
  rw [henum, List.map_cons, List.map_nil, List.map_cons, List.map_nil] at hx
  have hx2 : (mkGNode c9Store.length (fun _ => 0) 0 c9User).posX =
      (mkGNode c9Store.length (fun _ => 1) 0 c9User).posX := by
    simpa using hx
  unfold mkGNode at hx2
  simp only [] at hx2
  push_cast at hx2
  linarith

/-- C6 (amended): the projection is a pure function of the snapshot and the
random stream; with the stream fixed out, it is deterministic in everything
except the jittered positions — node ids, labels, data, categories and the
edge list coincide for any two random streams. -/
theorem c6_deterministic_modulo_positions :
    ∀ (s : List UserR) (r1 r2 : ℕ → ℚ),
      (getGraphData s r1).nodes.map stripPos = (getGraphData s r2).nodes.map stripPos ∧
      (getGraphData s r1).edges = (getGraphData s r2).edges := by
  intro s r1 r2
  constructor
  · simp only [getGraphData, List.map_map]
    refine List.map_congr_left (fun p _ => ?_)
    rfl
  · rfl
